import Mathlib

/-!
# Verification of the p11net persistent object store (`object_store_impl.cc`)

A shallow embedding of the object-store operations of
`src/object_store_impl.cc`.  C++ `std::string` byte strings are modelled as
`List Char` (each element one byte), C++ `int` as `Int` with the explicit
`2^31` bounds the code checks, the leveldb key-value engine as an
association list together with an `Env` of injected durable-write faults,
and the cipher / keyed-digest providers as an abstract `CryptoPrims`
record consumed as black boxes exactly as the source does.  Fallible code
returns `Option`; a C++ exception escaping a function (e.g. `std::stoi`
throwing) is the `Except.error` alternative, kept distinct from an
explicit `false` return.  The engine-open / repair ladder (`Init`) is out
of scope of the claims treated here; all operations act on an
already-opened store state.
-/

namespace P11Net

/-- Byte strings (`std::string` contents). -/
abbrev Bytes := List Char

/-- Bytes of a Lean string literal, used to transcribe C++ string constants. -/
def strB (s : String) : Bytes := s.data

/-- `ObjectStoreImpl::BlobType`. -/
inductive BlobType where
  | kInternal
  | kPublic
  | kPrivate
deriving DecidableEq

/-- `ObjectBlob { bool is_private; std::string blob; }`. -/
structure ObjectBlob where
  is_private : Bool
  blob : Bytes
deriving DecidableEq

def kInternalBlobKeyPref : Bytes := strB "InternalBlob"

def kPublicBlobKeyPref : Bytes := strB "PublicBlob"

def kPrivateBlobKeyPref : Bytes := strB "PrivateBlob"

/-- `kBlobKeySeparator` (a single byte in the source). -/
def kBlobKeySep : Char := '&'

def kDatabaseVersionKey : Bytes := strB "DBVersion"

def kIDTrackerKey : Bytes := strB "NextBlobID"

def kAESKeySizeBytes : Nat := 32

def kHMACSizeBytes : Nat := 64

def kBlobVersion : Nat := 1

/-- The fixed compiled-in obfuscation key (32 bytes). -/
def obfuscationKey : Bytes :=
  [Char.ofNat 0x6f, Char.ofNat 0xaa, Char.ofNat 0x0a, Char.ofNat 0xb6,
   Char.ofNat 0x10, Char.ofNat 0xc0, Char.ofNat 0xa6, Char.ofNat 0xe4,
   Char.ofNat 0x07, Char.ofNat 0x8b, Char.ofNat 0x05, Char.ofNat 0x1c,
   Char.ofNat 0xd2, Char.ofNat 0x8b, Char.ofNat 0xac, Char.ofNat 0x2d,
   Char.ofNat 0xba, Char.ofNat 0x5e, Char.ofNat 0x14, Char.ofNat 0x9c,
   Char.ofNat 0xae, Char.ofNat 0x57, Char.ofNat 0xfb, Char.ofNat 0x04,
   Char.ofNat 0x13, Char.ofNat 0x92, Char.ofNat 0xc0, Char.ofNat 0x84,
   Char.ofNat 0x2a, Char.ofNat 0xea, Char.ofNat 0xf6, Char.ofNat 0xfb]

/-- `std::numeric_limits<int>::max()`. -/
def intMax : Int := 2147483647

/-- `std::numeric_limits<int>::min()`. -/
def intMin : Int := -2147483648

/-- The external symmetric-cipher and keyed-digest providers, consumed as
black boxes.  `runCipher is_encrypt key iv data` models
`ObjectStoreImpl::RunCipher` (`none` = the provider reported failure);
`hmacSha512 input key` models `HmacSha512`. -/
structure CryptoPrims where
  runCipher : Bool → Bytes → Bytes → Bytes → Option Bytes
  hmacSha512 : Bytes → Bytes → Bytes

/-! ## Association-list maps (leveldb contents, `std::map` members) -/

def aget {κ α : Type} [DecidableEq κ] : List (κ × α) → κ → Option α
  | [], _ => none
  | kv :: rest, k => if kv.1 = k then some kv.2 else aget rest k

/-- `std::map::operator[]` assignment / leveldb `Put`: replace the first
binding of the key in place, or append a new binding. -/
def aput {κ α : Type} [DecidableEq κ] : List (κ × α) → κ → α → List (κ × α)
  | [], k, v => [(k, v)]
  | kv :: rest, k, v => if kv.1 = k then (k, v) :: rest else kv :: aput rest k v

/-- leveldb `Delete` (deleting an absent key succeeds and is a no-op). -/
def aerase {κ α : Type} [DecidableEq κ] (m : List (κ × α)) (k : κ) : List (κ × α) :=
  m.filter (fun kv => decide (kv.1 ≠ k))

/-- Fault model for the durable engine writes: which `Put` / `Delete`
calls report a non-ok status. -/
structure Env where
  putFails : Bytes → Bool
  deleteFails : Bytes → Bool

/-- The store's mutable state: the open leveldb contents (`db_`), the
secret encryption key (`key_`, empty = never set), and the in-memory
handle-to-category index (`blob_type_map_`). -/
structure Store where
  db : List (Bytes × Bytes)
  key_ : Bytes
  blob_type_map_ : List (Int × BlobType)
deriving DecidableEq

deriving instance DecidableEq for Except

/-! ## Decimal text codec (`std::to_string` / `std::stoi`) -/

/-- Digit value to ASCII digit character. -/
def digitChar (d : Nat) : Char := Char.ofNat (48 + d)

/-- Decimal digits of `n`, most significant first, via explicit fuel so
that the definition is structurally recursive (kernel-reducible). -/
def natDecAux : Nat → Nat → List Char
  | 0, _ => []
  | f + 1, n => if n < 10 then [digitChar n] else natDecAux f (n / 10) ++ [digitChar (n % 10)]

def natToDec (n : Nat) : Bytes := natDecAux (n + 1) n

/-- `std::to_string` on a C++ `int` value. -/
def intToDecimal (v : Int) : Bytes :=
  if v < 0 then '-' :: natToDec v.natAbs else natToDec v.toNat

/-- Sign handling of `std::stoi`: an optional leading `-` or `+`. -/
def splitSign (s : Bytes) : Bool × Bytes :=
  match s with
  | [] => (false, [])
  | c :: t => if c = '-' then (true, t) else if c = '+' then (false, t) else (false, c :: t)

/-- The `out_of_range` check of `std::stoi` (conversion happens as `long`,
then a value outside `int` range throws). -/
def intRangeCheck (v : Int) : Except Unit Int :=
  if v < intMin ∨ intMax < v then .error () else .ok v

/-- `std::stoi`: skip leading whitespace, take an optional sign and a
non-empty run of decimal digits (trailing junk is ignored); throws
(`Except.error`) when there is no digit to convert (`invalid_argument`)
or the value is outside the `int` range (`out_of_range`). -/
def stoiChars (s : Bytes) : Except Unit Int :=
  let s1 := s.dropWhile Char.isWhitespace
  let sp := splitSign s1
  let ds := sp.2.takeWhile Char.isDigit
  if ds = [] then .error ()
  else
    let n : Nat := ds.foldl (fun a c => a * 10 + (c.toNat - 48)) 0
    intRangeCheck (if sp.1 then -(n : Int) else (n : Int))

/-! ## Key codec (`CreateBlobKey` / `ParseBlobKey`) -/

def typePref : BlobType → Bytes
  | .kInternal => kInternalBlobKeyPref
  | .kPublic => kPublicBlobKeyPref
  | .kPrivate => kPrivateBlobKeyPref

/-- `ObjectStoreImpl::CreateBlobKey`. -/
def CreateBlobKey (t : BlobType) (blob_id : Int) : Bytes :=
  typePref t ++ kBlobKeySep :: intToDecimal blob_id

/-- `std::string::rfind(kBlobKeySeparator)`: index of the last separator. -/
def rfindSep : Bytes → Option Nat
  | [] => none
  | c :: rest =>
    match rfindSep rest with
    | some i => some (i + 1)
    | none => if c = kBlobKeySep then some 0 else none

/-- `ObjectStoreImpl::ParseBlobKey`.  `.ok none` is the explicit `false`
return; `.error ()` is the `std::stoi` exception escaping the function. -/
def ParseBlobKey (key : Bytes) : Except Unit (Option (BlobType × Int)) :=
  match rfindSep key with
  | none => .ok none
  | some idx =>
    let key_piece := key.drop (idx + 1)
    match stoiChars key_piece with
    | .error _ => .error ()
    | .ok blob_id =>
      let pre := key.take idx
      if pre = kInternalBlobKeyPref then .ok (some (BlobType.kInternal, blob_id))
      else if pre = kPublicBlobKeyPref then .ok (some (BlobType.kPublic, blob_id))
      else if pre = kPrivateBlobKeyPref then .ok (some (BlobType.kPrivate, blob_id))
      else .ok none

/-! ## Engine pass-through helpers (`ReadBlob` / `WriteBlob` / `ReadInt` / `WriteInt`) -/

/-- `ObjectStoreImpl::ReadBlob` (`db_->Get`; the only failure mode modelled
is a read miss). -/
def ReadBlob (db : List (Bytes × Bytes)) (key : Bytes) : Option Bytes :=
  aget db key

/-- `ObjectStoreImpl::WriteBlob`: a durable `db_->Put`; `none` when the
engine reports a non-ok status. -/
def WriteBlob (e : Env) (db : List (Bytes × Bytes)) (key value : Bytes) :
    Option (List (Bytes × Bytes)) :=
  if e.putFails key then none else some (aput db key value)

/-- `ObjectStoreImpl::ReadInt`: `.error ()` is the `std::stoi` exception
escaping when the stored value is not numeric text. -/
def ReadInt (db : List (Bytes × Bytes)) (key : Bytes) : Except Unit (Option Int) :=
  match ReadBlob db key with
  | none => .ok none
  | some value_string =>
    match stoiChars value_string with
    | .error _ => .error ()
    | .ok v => .ok (some v)

/-- `ObjectStoreImpl::WriteInt`. -/
def WriteInt (e : Env) (db : List (Bytes × Bytes)) (key : Bytes) (value : Int) :
    Option (List (Bytes × Bytes)) :=
  WriteBlob e db key (intToDecimal value)

/-! ## Crypto layer (`Encrypt` / `Decrypt` and HMAC helpers) -/

/-- `ObjectStoreImpl::AppendHMAC`. -/
def AppendHMAC (C : CryptoPrims) (input key : Bytes) : Bytes :=
  input ++ C.hmacSha512 input key

/-- `ObjectStoreImpl::VerifyAndStripHMAC`: the size check plus the
constant-time `SecureMemcmp` are together byte-list equality; on success
the MAC-stripped prefix is returned. -/
def VerifyAndStripHMAC (C : CryptoPrims) (input key : Bytes) : Option Bytes :=
  if input.length < kHMACSizeBytes then none
  else
    if input.drop (input.length - kHMACSizeBytes) =
        C.hmacSha512 (input.take (input.length - kHMACSizeBytes)) key then
      some (input.take (input.length - kHMACSizeBytes))
    else none

/-- The cipher-and-MAC body of `Encrypt` once the key has been selected:
run the cipher with an empty IV, prepend the version header, append the
MAC over `(version_header || ciphertext)` under the same key. -/
def encryptWithKey (C : CryptoPrims) (key : Bytes) (plain_text : ObjectBlob) :
    Option ObjectBlob :=
  match C.runCipher true key [] plain_text.blob with
  | none => none
  | some cipher_text_no_hmac =>
    some { is_private := plain_text.is_private,
           blob := AppendHMAC C ([Char.ofNat kBlobVersion] ++ cipher_text_no_hmac) key }

/-- Core of `ObjectStoreImpl::Encrypt`, abstracted over the store's
`key_` field (the only state it reads): fail closed for a private blob
without a key, then select the secret or obfuscation key. -/
def EncryptK (C : CryptoPrims) (k_ : Bytes) (plain_text : ObjectBlob) : Option ObjectBlob :=
  if plain_text.is_private = true ∧ k_ = [] then none
  else encryptWithKey C (if plain_text.is_private then k_ else obfuscationKey) plain_text

/-- `ObjectStoreImpl::Encrypt`. -/
def Encrypt (C : CryptoPrims) (s : Store) (plain_text : ObjectBlob) : Option ObjectBlob :=
  EncryptK C s.key_ plain_text

/-- The MAC-verify / version-check / decipher body of `Decrypt` once the
key has been selected.  Reading `cipher_text_no_hmac[0]` on an empty
string yields the null character (C++11 guarantees this), hence `headD`
with the null character. -/
def decryptWithKey (C : CryptoPrims) (key : Bytes) (cipher_text : ObjectBlob) :
    Option ObjectBlob :=
  match VerifyAndStripHMAC C cipher_text.blob key with
  | none => none
  | some cipher_text_no_hmac =>
    if (cipher_text_no_hmac.headD (Char.ofNat 0)).toNat ≠ kBlobVersion then none
    else
      match C.runCipher false key [] (cipher_text_no_hmac.drop 1) with
      | none => none
      | some plain => some { is_private := cipher_text.is_private, blob := plain }

/-- Core of `ObjectStoreImpl::Decrypt`, abstracted over `key_`. -/
def DecryptK (C : CryptoPrims) (k_ : Bytes) (cipher_text : ObjectBlob) : Option ObjectBlob :=
  if cipher_text.is_private = true ∧ k_ = [] then none
  else decryptWithKey C (if cipher_text.is_private then k_ else obfuscationKey) cipher_text

/-- `ObjectStoreImpl::Decrypt`. -/
def Decrypt (C : CryptoPrims) (s : Store) (cipher_text : ObjectBlob) : Option ObjectBlob :=
  DecryptK C s.key_ cipher_text

/-! ## Object store operations -/

/-- `ObjectStoreImpl::SetEncryptionKey`. -/
def SetEncryptionKey (s : Store) (key : Bytes) : Bool × Store :=
  if key.length ≠ kAESKeySizeBytes then (false, s)
  else (true, { s with key_ := key })

/-- `ObjectStoreImpl::GetBlobType`: an unmapped handle defaults to
`kInternal`. -/
def GetBlobType (s : Store) (blob_id : Int) : BlobType :=
  match aget s.blob_type_map_ blob_id with
  | none => BlobType.kInternal
  | some t => t

/-- `ObjectStoreImpl::GetNextID`.  `.error ()` is a `std::stoi` exception
propagating out of `ReadInt`. -/
def GetNextID (e : Env) (s : Store) : Except Unit (Option Int × Store) :=
  match ReadInt s.db kIDTrackerKey with
  | .error _ => .error ()
  | .ok none => .ok (none, s)
  | .ok (some next_id) =>
    if next_id = intMax then .ok (none, s)
    else
      match WriteInt e s.db kIDTrackerKey (next_id + 1) with
      | none => .ok (none, s)
      | some db2 => .ok (some next_id, { s with db := db2 })

/-- `ObjectStoreImpl::UpdateObjectBlob`.  Note the source logs but does
not propagate a `WriteBlob` failure: the result is `true` either way. -/
def UpdateObjectBlob (C : CryptoPrims) (e : Env) (s : Store) (handle : Int)
    (blob : ObjectBlob) : Bool × Store :=
  let type := GetBlobType s handle
  if blob.is_private ≠ decide (type = BlobType.kPrivate) then (false, s)
  else
    match Encrypt C s blob with
    | none => (false, s)
    | some encrypted_blob =>
      match WriteBlob e s.db (CreateBlobKey type handle) encrypted_blob.blob with
      | none => (true, s)
      | some db2 => (true, { s with db := db2 })

/-- `ObjectStoreImpl::InsertObjectBlob`.  The `Option Int` is the handle
out-parameter on success, `none` on an explicit `false` return. -/
def InsertObjectBlob (C : CryptoPrims) (e : Env) (s : Store) (blob : ObjectBlob) :
    Except Unit (Option Int × Store) :=
  if blob.is_private = true ∧ s.key_ = [] then .ok (none, s)
  else
    match GetNextID e s with
    | .error _ => .error ()
    | .ok (none, s1) => .ok (none, s1)
    | .ok (some handle, s1) =>
      let s2 := { s1 with
        blob_type_map_ := aput s1.blob_type_map_ handle
          (if blob.is_private then BlobType.kPrivate else BlobType.kPublic) }
      let r := UpdateObjectBlob C e s2 handle blob
      .ok (if r.1 then some handle else none, r.2)

/-- `ObjectStoreImpl::DeleteObjectBlob`. -/
def DeleteObjectBlob (e : Env) (s : Store) (handle : Int) : Bool × Store :=
  let db_key := CreateBlobKey (GetBlobType s handle) handle
  if e.deleteFails db_key then (false, s)
  else (true, { s with db := aerase s.db db_key })

/-- The scan phase of `DeleteAllObjectBlobs`: collect, in iteration
order, every key that parses to a non-`kInternal` category; a
`ParseBlobKey` exception at any entry escapes the whole loop. -/
def sweepKeys : List (Bytes × Bytes) → Except Unit (List Bytes)
  | [] => .ok []
  | (k, _) :: rest =>
    match ParseBlobKey k with
    | .error _ => .error ()
    | .ok none => sweepKeys rest
    | .ok (some (t, _)) =>
      match sweepKeys rest with
      | .error _ => .error ()
      | .ok ks => .ok (if t = BlobType.kInternal then ks else k :: ks)

/-- `ObjectStoreImpl::DeleteAllObjectBlobs`: scan then delete each
collected key independently, continuing past individual failures;
`deleted_all` is the aggregate result.  A scan-phase exception escapes
with the store unmodified (`.error`). -/
def DeleteAllObjectBlobs (e : Env) (s : Store) : Except Store (Bool × Store) :=
  match sweepKeys s.db with
  | .error _ => .error s
  | .ok blobs_to_delete =>
    let r := blobs_to_delete.foldl
      (fun (acc : Bool × List (Bytes × Bytes)) k =>
        if e.deleteFails k then (false, acc.2) else (acc.1, aerase acc.2 k))
      (true, s.db)
    .ok (r.1, { s with db := r.2 })

/-- The iteration of `LoadObjectBlobs` over the engine contents,
accumulating the out-parameter map and the `blob_type_map_` member.  On a
`ParseBlobKey` exception the `blob_type_map_` mutations made so far are
retained by the store object (`.error` carries them). -/
def loadLoop (C : CryptoPrims) (k_ : Bytes) (type : BlobType) :
    List (Bytes × Bytes) → List (Int × ObjectBlob) → List (Int × BlobType) →
    Except (List (Int × BlobType)) (List (Int × ObjectBlob) × List (Int × BlobType))
  | [], blobs, btm => .ok (blobs, btm)
  | (k, v) :: rest, blobs, btm =>
    match ParseBlobKey k with
    | .error _ => .error btm
    | .ok none => loadLoop C k_ type rest blobs btm
    | .ok (some (it_type, id)) =>
      if type = it_type then
        let encrypted_blob : ObjectBlob :=
          { is_private := decide (type = BlobType.kPrivate), blob := v }
        match DecryptK C k_ encrypted_blob with
        | none => loadLoop C k_ type rest blobs btm
        | some blob => loadLoop C k_ type rest (aput blobs id blob) (aput btm id type)
      else loadLoop C k_ type rest blobs btm

/-- `ObjectStoreImpl::LoadObjectBlobs`. -/
def LoadObjectBlobs (C : CryptoPrims) (type : BlobType) (s : Store) :
    Except Store (List (Int × ObjectBlob) × Store) :=
  match loadLoop C s.key_ type s.db [] s.blob_type_map_ with
  | .error btm => .error { s with blob_type_map_ := btm }
  | .ok (blobs, btm) => .ok (blobs, { s with blob_type_map_ := btm })

/-- `ObjectStoreImpl::LoadPublicObjectBlobs` (`some` wraps the map so the
result shape matches the private variant). -/
def LoadPublicObjectBlobs (C : CryptoPrims) (s : Store) :
    Except Store (Option (List (Int × ObjectBlob)) × Store) :=
  (LoadObjectBlobs C BlobType.kPublic s).map (fun r => (some r.1, r.2))

/-- `ObjectStoreImpl::LoadPrivateObjectBlobs`: fails (before any scan)
when no encryption key is set. -/
def LoadPrivateObjectBlobs (C : CryptoPrims) (s : Store) :
    Except Store (Option (List (Int × ObjectBlob)) × Store) :=
  if s.key_ = [] then .ok (none, s)
  else (LoadObjectBlobs C BlobType.kPrivate s).map (fun r => (some r.1, r.2))

/-- `ObjectStoreImpl::GetInternalBlob`. -/
def GetInternalBlob (s : Store) (blob_id : Int) : Option Bytes :=
  ReadBlob s.db (CreateBlobKey BlobType.kInternal blob_id)

/-- `ObjectStoreImpl::SetInternalBlob`. -/
def SetInternalBlob (e : Env) (s : Store) (blob_id : Int) (blob : Bytes) : Bool × Store :=
  match WriteBlob e s.db (CreateBlobKey BlobType.kInternal blob_id) blob with
  | none => (false, s)
  | some db2 => (true, { s with db := db2 })

/-! ## Spec-side helpers used to state the theorems -/

/-- Whether `DeleteAllObjectBlobs` selects this key for deletion. -/
def isSweepTarget (k : Bytes) : Bool :=
  match ParseBlobKey k with
  | .ok (some (t, _)) => decide (t ≠ BlobType.kInternal)
  | _ => false

/-- `ParseBlobKey` does not throw on this key. -/
def parseOk (k : Bytes) : Bool :=
  match ParseBlobKey k with
  | .ok _ => true
  | .error _ => false

/-- Boolean membership in a key list. -/
def bmem (x : Bytes) : List Bytes → Bool
  | [] => false
  | y :: ys => if y = x then true else bmem x ys

/-- An insert result is a success carrying a handle. -/
def insertOk (r : Except Unit (Option Int × Store)) : Bool :=
  match r with
  | .ok (some _, _) => true
  | _ => false

/-- A load result is a success carrying a map. -/
def loadOk (r : Except Store (Option (List (Int × ObjectBlob)) × Store)) : Bool :=
  match r with
  | .ok (some _, _) => true
  | _ => false

/-! ## Association-map lemmas -/

theorem aget_aput_self {κ α : Type} [DecidableEq κ] (m : List (κ × α)) (k : κ) (v : α) :
    aget (aput m k v) k = some v := by
  induction m with
  | nil => simp [aput, aget]
  | cons kv rest ih =>
    by_cases h : kv.1 = k
    · simp [aput, h, aget]
    · simp [aput, h, aget, ih]

theorem aget_aput_ne {κ α : Type} [DecidableEq κ] (m : List (κ × α)) (k k' : κ) (v : α)
    (h : k ≠ k') : aget (aput m k v) k' = aget m k' := by
  induction m with
  | nil => simp [aput, aget, h]
  | cons kv rest ih =>
    by_cases hk : kv.1 = k
    · simp [aput, hk, aget, h]
    · simp [aput, hk, aget, ih]

/-- `aget` through a filter whose predicate depends only on the key and
accepts this key. -/
theorem aget_filter_of_key {α : Type} (db : List (Bytes × α)) (q : Bytes → Bool) (k : Bytes)
    (hq : q k = true) : aget (db.filter (fun kv => q kv.1)) k = aget db k := by
  induction db with
  | nil => rfl
  | cons kv rest ih =>
    by_cases hk : kv.1 = k
    · simp [List.filter_cons, hk, hq, aget]
    · by_cases hqk : q kv.1 <;> simp [List.filter_cons, hqk, aget, hk, ih]

theorem bmem_iff (x : Bytes) (l : List Bytes) : bmem x l = true ↔ x ∈ l := by
  induction l with
  | nil => simp [bmem]
  | cons y ys ih =>
    by_cases h : y = x
    · subst h; simp [bmem]
    · rw [bmem, if_neg h, ih]
      constructor
      · exact fun hm => List.mem_cons_of_mem _ hm
      · intro hm
        rcases List.mem_cons.mp hm with hm | hm
        · exact absurd hm.symm h
        · exact hm

/-! ## Decimal-codec lemmas -/

theorem natDecAux_mem {P : Char → Prop} (hP : ∀ d, d < 10 → P (digitChar d)) :
    ∀ f n c, c ∈ natDecAux f n → P c := by
  intro f
  induction f with
  | zero => intro n c hc; simp [natDecAux] at hc
  | succ f ih =>
    intro n c hc
    by_cases h : n < 10
    · simp [natDecAux, h] at hc
      exact hc ▸ hP n h
    · simp [natDecAux, h] at hc
      rcases hc with hc | hc
      · exact ih _ _ hc
      · exact hc ▸ hP _ (Nat.mod_lt _ (by norm_num))

theorem natDecAux_ne_nil (f n : Nat) : natDecAux (f + 1) n ≠ [] := by
  by_cases h : n < 10 <;> simp [natDecAux, h]

theorem digitChar_toNat {d : Nat} (h : d < 10) : (digitChar d).toNat = 48 + d := by
  interval_cases d <;> decide

/-- The characteristic digit facts needed for `std::stoi` behaviour. -/
theorem digitChar_facts {d : Nat} (h : d < 10) :
    (digitChar d).isDigit = true ∧ (digitChar d).isWhitespace = false ∧
      digitChar d ≠ '-' ∧ digitChar d ≠ '+' ∧ digitChar d ≠ kBlobKeySep := by
  interval_cases d <;> exact (by decide)

theorem natDecAux_foldl (f : Nat) :
    ∀ n a, n < f →
      (natDecAux f n).foldl (fun a c => a * 10 + (c.toNat - 48)) a =
        a * 10 ^ (natDecAux f n).length + n := by
  induction f with
  | zero => intro n a h; omega
  | succ f ih =>
    intro n a h
    by_cases h10 : n < 10
    · simp only [natDecAux, if_pos h10, List.foldl_cons, List.foldl_nil,
        List.length_cons, List.length_nil, digitChar_toNat h10]
      omega
    · have hdiv : n / 10 < f := by
        have hx : n / 10 < n := Nat.div_lt_self (by omega) (by norm_num)
        omega
      simp only [natDecAux, if_neg h10, List.foldl_append, List.length_append,
        List.foldl_cons, List.foldl_nil, List.length_cons, List.length_nil]
      rw [ih _ a hdiv, digitChar_toNat (Nat.mod_lt _ (by norm_num))]
      have hmod : n / 10 * 10 + n % 10 = n := by omega
      rw [pow_succ]
      ring_nf
      omega

theorem natToDec_foldl (n : Nat) :
    (natToDec n).foldl (fun a c => a * 10 + (c.toNat - 48)) 0 = n := by
  have := natDecAux_foldl (n + 1) n 0 (Nat.lt_succ_self n)
  simpa [natToDec] using this

theorem natToDec_ne_nil (n : Nat) : natToDec n ≠ [] := natDecAux_ne_nil n n

theorem natToDec_mem {n : Nat} {P : Char → Prop} (hP : ∀ d, d < 10 → P (digitChar d)) :
    ∀ c ∈ natToDec n, P c := fun c hc => natDecAux_mem hP _ _ _ hc

/-- The digit facts for every character of `natToDec n`. -/
theorem natToDec_facts {n : Nat} :
    ∀ c ∈ natToDec n, c.isDigit = true ∧ c.isWhitespace = false ∧
      c ≠ '-' ∧ c ≠ '+' ∧ c ≠ kBlobKeySep :=
  natToDec_mem (fun _ hd => digitChar_facts hd)

theorem takeWhile_all {p : Char → Bool} :
    ∀ l : Bytes, (∀ c ∈ l, p c = true) → l.takeWhile p = l := by
  intro l
  induction l with
  | nil => intro _; rfl
  | cons c t ih =>
    intro h
    rw [List.takeWhile_cons, if_pos (h c (List.mem_cons_self c t)),
      ih (fun x hx => h x (List.mem_cons_of_mem _ hx))]

theorem dropWhile_all_not {p : Char → Bool} :
    ∀ l : Bytes, (∀ c ∈ l, p c = false) → l.dropWhile p = l := by
  intro l h
  cases l with
  | nil => rfl
  | cons c t =>
    rw [List.dropWhile_cons, if_neg (by rw [h c (List.mem_cons_self c t)]; exact Bool.false_ne_true)]

theorem splitSign_no_sign {c : Char} {t : Bytes} (h1 : c ≠ '-') (h2 : c ≠ '+') :
    splitSign (c :: t) = (false, c :: t) := by
  simp [splitSign, h1, h2]

theorem stoiChars_natToDec {n : Nat} (h : (n : Int) ≤ intMax) :
    stoiChars (natToDec n) = .ok (n : Int) := by
  have hdrop : (natToDec n).dropWhile Char.isWhitespace = natToDec n :=
    dropWhile_all_not _ (fun c hc => (natToDec_facts c hc).2.1)
  have hsign : splitSign (natToDec n) = (false, natToDec n) := by
    rcases hct : natToDec n with _ | ⟨c, t⟩
    · exact absurd hct (natToDec_ne_nil n)
    · have hh := natToDec_facts (n := n) c (by rw [hct]; exact List.mem_cons_self c t)
      rw [splitSign_no_sign hh.2.2.1 hh.2.2.2.1]
  have htake : (natToDec n).takeWhile Char.isDigit = natToDec n :=
    takeWhile_all _ (fun c hc => (natToDec_facts c hc).1)
  have hrange : ¬((n : Int) < intMin ∨ intMax < (n : Int)) := by
    push_neg
    constructor
    · have : (0 : Int) ≤ (n : Int) := Int.ofNat_nonneg n
      rw [intMin]; omega
    · exact h
  simp only [stoiChars, hdrop, hsign, htake, natToDec_foldl]
  rw [if_neg (natToDec_ne_nil n)]
  simp only [Bool.false_eq_true, if_false]
  rw [intRangeCheck, if_neg hrange]

theorem stoiChars_intToDecimal {v : Int} (h1 : intMin ≤ v) (h2 : v ≤ intMax) :
    stoiChars (intToDecimal v) = .ok v := by
  by_cases hv : v < 0
  · have hva : (v.natAbs : Int) = -v := by omega
    have hdrop : ('-' :: natToDec v.natAbs).dropWhile Char.isWhitespace =
        '-' :: natToDec v.natAbs := by
      apply dropWhile_all_not
      intro c hc
      rcases List.mem_cons.mp hc with hc | hc
      · rw [hc]; decide
      · exact (natToDec_facts c hc).2.1
    have hsign : splitSign ('-' :: natToDec v.natAbs) = (true, natToDec v.natAbs) := by
      simp [splitSign]
    have htake : (natToDec v.natAbs).takeWhile Char.isDigit = natToDec v.natAbs :=
      takeWhile_all _ (fun c hc => (natToDec_facts c hc).1)
    have hrange : ¬(-((v.natAbs : Nat) : Int) < intMin ∨ intMax < -((v.natAbs : Nat) : Int)) := by
      push_neg
      rw [intMin] at h1 ⊢
      rw [intMax] at h2 ⊢
      omega
    rw [intToDecimal, if_pos hv]
    simp only [stoiChars, hdrop, hsign, htake, natToDec_foldl]
    rw [if_neg (natToDec_ne_nil v.natAbs)]
    simp only [if_true]
    rw [intRangeCheck, if_neg hrange]
    congr 1
    omega
  · have hvn : ((v.toNat : Nat) : Int) = v := by omega
    rw [intToDecimal, if_neg hv, stoiChars_natToDec (by omega), hvn]

theorem intRangeCheck_ok {w v : Int} (h : intRangeCheck w = .ok v) :
    intMin ≤ v ∧ v ≤ intMax := by
  rw [intRangeCheck] at h
  split at h
  · exact Except.noConfusion h
  · next hr =>
    push_neg at hr
    cases h
    exact hr

theorem stoiChars_range {s : Bytes} {v : Int} (h : stoiChars s = .ok v) :
    intMin ≤ v ∧ v ≤ intMax := by
  simp only [stoiChars] at h
  split at h
  · exact Except.noConfusion h
  · exact intRangeCheck_ok h

/-! ## Key-codec lemmas -/

theorem rfindSep_none {l : Bytes} (h : ∀ c ∈ l, c ≠ kBlobKeySep) : rfindSep l = none := by
  induction l with
  | nil => rfl
  | cons c t ih =>
    rw [rfindSep, ih (fun x hx => h x (List.mem_cons_of_mem _ hx))]
    exact if_neg (h c (List.mem_cons_self c t))

theorem rfindSep_append_sep {pre digs : Bytes} (hpre : ∀ c ∈ pre, c ≠ kBlobKeySep)
    (hd : ∀ c ∈ digs, c ≠ kBlobKeySep) :
    rfindSep (pre ++ kBlobKeySep :: digs) = some pre.length := by
  induction pre with
  | nil =>
    rw [List.nil_append, rfindSep, rfindSep_none hd]
    rfl
  | cons c t ih =>
    rw [List.cons_append, rfindSep, ih (fun x hx => hpre x (List.mem_cons_of_mem _ hx))]
    rfl

theorem take_len_append {α : Type} (l₁ l₂ : List α) : (l₁ ++ l₂).take l₁.length = l₁ := by
  induction l₁ with
  | nil => rfl
  | cons a t ih => simp [List.take, ih]

theorem drop_len_append {α : Type} (l₁ l₂ : List α) : (l₁ ++ l₂).drop l₁.length = l₂ := by
  induction l₁ with
  | nil => rfl
  | cons a t ih => simp [List.drop, ih]

theorem intToDecimal_ne_sep {v : Int} : ∀ c ∈ intToDecimal v, c ≠ kBlobKeySep := by
  intro c hc
  rw [intToDecimal] at hc
  split at hc
  · rcases List.mem_cons.mp hc with hc | hc
    · rw [hc]; decide
    · exact natToDec_mem (P := fun c => c ≠ kBlobKeySep)
        (fun d hd => (digitChar_facts hd).2.2.2.2) c hc
  · exact natToDec_mem (P := fun c => c ≠ kBlobKeySep)
      (fun d hd => (digitChar_facts hd).2.2.2.2) c hc

theorem typePref_ne_sep (t : BlobType) : ∀ c ∈ typePref t, c ≠ kBlobKeySep := by
  cases t <;> decide

theorem parseBlobKey_no_sep {key : Bytes} (h : ∀ c ∈ key, c ≠ kBlobKeySep) :
    ParseBlobKey key = .ok none := by
  simp [ParseBlobKey, rfindSep_none h]

theorem parseBlobKey_createBlobKey {t : BlobType} {id : Int}
    (h1 : intMin ≤ id) (h2 : id ≤ intMax) :
    ParseBlobKey (CreateBlobKey t id) = .ok (some (t, id)) := by
  have hrf : rfindSep (CreateBlobKey t id) = some (typePref t).length :=
    rfindSep_append_sep (typePref_ne_sep t) intToDecimal_ne_sep
  have htake : (CreateBlobKey t id).take (typePref t).length = typePref t :=
    take_len_append _ _
  have hdrop : (CreateBlobKey t id).drop ((typePref t).length + 1) = intToDecimal id := by
    have h0 : (CreateBlobKey t id).drop (typePref t).length =
        kBlobKeySep :: intToDecimal id := drop_len_append _ _
    have hdd : (CreateBlobKey t id).drop ((typePref t).length + 1) =
        ((CreateBlobKey t id).drop (typePref t).length).drop 1 := by
      rw [List.drop_drop]
    rw [hdd, h0]
    rfl
  rw [ParseBlobKey, hrf]
  simp only [hdrop, stoiChars_intToDecimal h1 h2, htake]
  cases t
  · rw [if_pos (show typePref BlobType.kInternal = kInternalBlobKeyPref from rfl)]
  · rw [if_neg (show typePref BlobType.kPublic ≠ kInternalBlobKeyPref by decide),
      if_pos (show typePref BlobType.kPublic = kPublicBlobKeyPref from rfl)]
  · rw [if_neg (show typePref BlobType.kPrivate ≠ kInternalBlobKeyPref by decide),
      if_neg (show typePref BlobType.kPrivate ≠ kPublicBlobKeyPref by decide),
      if_pos (show typePref BlobType.kPrivate = kPrivateBlobKeyPref from rfl)]

theorem parseBlobKey_range {key : Bytes} {t : BlobType} {id : Int}
    (h : ParseBlobKey key = .ok (some (t, id))) : intMin ≤ id ∧ id ≤ intMax := by
  rw [ParseBlobKey] at h
  rcases hrf : rfindSep key with _ | idx <;> simp only [hrf] at h
  · exact Option.noConfusion (Except.ok.inj h)
  · rcases hst : stoiChars (key.drop (idx + 1)) with e | v <;> simp only [hst] at h
    · exact Except.noConfusion h
    · have hr := stoiChars_range hst
      split_ifs at h
      · cases h; exact hr
      · cases h; exact hr
      · cases h; exact hr
      · exact Option.noConfusion (Except.ok.inj h)

/-! ## Concrete instantiations used to evaluate theorems on closed inputs -/

/-- A concrete primitive provider meeting the stated contracts (identity
cipher, length-64 digest), used to evaluate theorems at closed inputs. -/
def idCipherPrims : CryptoPrims where
  runCipher := fun _ _ _ data => some data
  hmacSha512 := fun input key =>
    List.replicate 64 (Char.ofNat ((input.length + key.length) % 256))

/-- An environment in which every durable write succeeds. -/
def noFailEnv : Env where
  putFails := fun _ => false
  deleteFails := fun _ => false

/-- An environment in which every durable `Put` fails. -/
def allPutFailEnv : Env where
  putFails := fun _ => true
  deleteFails := fun _ => false

/-- Success of a raw `LoadObjectBlobs` call combined with a property of
its two outputs. -/
def loadOkAnd (r : Except Store (List (Int × ObjectBlob) × Store))
    (P : List (Int × ObjectBlob) → Store → Prop) : Prop :=
  match r with
  | .ok (m, s2) => P m s2
  | .error _ => False

/-- The key `Decrypt` selects for a record. -/
def selKey (s : Store) (r : ObjectBlob) : Bytes :=
  if r.is_private = true then s.key_ else obfuscationKey

/-- The record minus its trailing MAC region. -/
def strippedOf (r : ObjectBlob) : Bytes := r.blob.take (r.blob.length - kHMACSizeBytes)

/-- The trailing MAC region of a record. -/
def macOf (r : ObjectBlob) : Bytes := r.blob.drop (r.blob.length - kHMACSizeBytes)

/-! ## Claim C1 -/

/-- Claim C1: for every handle and blob whose privacy flag agrees with the
handle's recorded category, and for which encryption succeeds,
`UpdateObjectBlob` reports success whatever the environment does to the
durable write (the universally quantified `e` covers both a succeeding
and a failing `Put` of the encrypted record). -/
theorem updateObjectBlob_true_despite_write_failure
    (C : CryptoPrims) (e : Env) (s : Store) (handle : Int) (blob enc : ObjectBlob)
    (hagree : blob.is_private = decide (GetBlobType s handle = BlobType.kPrivate))
    (henc : Encrypt C s blob = some enc) :
    (UpdateObjectBlob C e s handle blob).1 = true := by
  simp only [UpdateObjectBlob, henc]
  rw [if_neg (by rw [hagree]; simp)]
  cases WriteBlob e s.db (CreateBlobKey (GetBlobType s handle) handle) enc.blob <;> rfl

/-- Witness for C1: a concrete public blob, an unmapped handle, and an
environment whose every `Put` fails; the update still reports success. -/
theorem updateObjectBlob_true_despite_write_failure_witness :
    (UpdateObjectBlob idCipherPrims allPutFailEnv
      { db := [], key_ := [], blob_type_map_ := [] } 5
      { is_private := false, blob := strB "abc" }).1 = true :=
  updateObjectBlob_true_despite_write_failure idCipherPrims allPutFailEnv
    { db := [], key_ := [], blob_type_map_ := [] } 5
    { is_private := false, blob := strB "abc" }
    ((Encrypt idCipherPrims { db := [], key_ := [], blob_type_map_ := [] }
      { is_private := false, blob := strB "abc" }).get (by rfl))
    (by decide) (Option.some_get _).symm

/-! ## Claim C10 -/

/-- Claim C10: processing of non-private data never reads the secret key:
`Encrypt` and `Decrypt` of a non-private blob / record give identical
results in any two stores differing only in the `key_` field. -/
theorem public_crypto_key_noninterference
    (C : CryptoPrims) (s : Store) (k : Bytes) (b r : ObjectBlob)
    (hb : b.is_private = false) (hr : r.is_private = false) :
    Encrypt C { s with key_ := k } b = Encrypt C s b ∧
      Decrypt C { s with key_ := k } r = Decrypt C s r := by
  constructor
  · simp [Encrypt, EncryptK, hb]
  · simp [Decrypt, DecryptK, hr]

/-- Witness for C10: a concrete public blob and record, comparing the
store with no key against the same store with a 32-byte key. -/
theorem public_crypto_key_noninterference_witness :
    Encrypt idCipherPrims
        { db := [], key_ := strB "0123456789abcdef0123456789abcdef", blob_type_map_ := [] }
        { is_private := false, blob := strB "pub" } =
      Encrypt idCipherPrims { db := [], key_ := [], blob_type_map_ := [] }
        { is_private := false, blob := strB "pub" } ∧
    Decrypt idCipherPrims
        { db := [], key_ := strB "0123456789abcdef0123456789abcdef", blob_type_map_ := [] }
        { is_private := false, blob := strB "rec" } =
      Decrypt idCipherPrims { db := [], key_ := [], blob_type_map_ := [] }
        { is_private := false, blob := strB "rec" } :=
  public_crypto_key_noninterference idCipherPrims
    { db := [], key_ := [], blob_type_map_ := [] }
    (strB "0123456789abcdef0123456789abcdef")
    { is_private := false, blob := strB "pub" }
    { is_private := false, blob := strB "rec" } rfl rfl

/-! ## Claim C3 -/

/-- Counterexample to C3 as stated: `ParseBlobKey` succeeds on a negative
trailing segment, returning the negative handle `-5` (the claim says a
non-negative decimal is required and the returned handle is
non-negative), and on a non-numeric trailing segment it escapes with a
`std::stoi` exception instead of an explicit failure result. -/
theorem parseBlobKey_negative_and_throw_cex :
    ParseBlobKey (strB "PublicBlob&-5") = .ok (some (BlobType.kPublic, -5)) ∧
      ParseBlobKey (strB "PublicBlob&x") = .error () := by
  exact ⟨by rfl, by rfl⟩

/-- Helper: a `std::stoi` exception on the trailing segment escapes
`ParseBlobKey` rather than producing an explicit failure. -/
theorem parseBlobKey_throws {key : Bytes} {idx : Nat} (hrf : rfindSep key = some idx)
    (hst : stoiChars (key.drop (idx + 1)) = .error ()) : ParseBlobKey key = .error () := by
  simp only [ParseBlobKey, hrf, hst]

/-- Helper: an unrecognized leading segment (with a parseable trailing
segment) is an explicit failure. -/
theorem parseBlobKey_unknown_pre {key : Bytes} {idx : Nat} {v : Int}
    (hrf : rfindSep key = some idx) (hst : stoiChars (key.drop (idx + 1)) = .ok v)
    (h1 : key.take idx ≠ kInternalBlobKeyPref) (h2 : key.take idx ≠ kPublicBlobKeyPref)
    (h3 : key.take idx ≠ kPrivateBlobKeyPref) : ParseBlobKey key = .ok none := by
  simp only [ParseBlobKey, hrf, hst, if_neg h1, if_neg h2, if_neg h3]

/-- Claim C3, amended: `ParseBlobKey` explicitly fails on a key with no
separator, and on a separator-bearing key whose trailing segment parses
as a signed decimal `int` but whose leading segment is not one of the
three known prefixes; a trailing segment with no parseable integer (or
one out of `int` range) escapes via a `std::stoi` exception instead of an
explicit failure; decoding round-trips every encoded key, including
negative handles, and any successfully returned handle lies in `int`
range (but may be negative). -/
theorem parseBlobKey_amended_characterization :
    (∀ key : Bytes, (∀ c ∈ key, c ≠ kBlobKeySep) → ParseBlobKey key = .ok none) ∧
    (∀ (key : Bytes) (idx : Nat), rfindSep key = some idx →
      stoiChars (key.drop (idx + 1)) = .error () → ParseBlobKey key = .error ()) ∧
    (∀ (key : Bytes) (idx : Nat) (v : Int), rfindSep key = some idx →
      stoiChars (key.drop (idx + 1)) = .ok v →
      key.take idx ≠ kInternalBlobKeyPref → key.take idx ≠ kPublicBlobKeyPref →
      key.take idx ≠ kPrivateBlobKeyPref → ParseBlobKey key = .ok none) ∧
    (∀ (t : BlobType) (id : Int), intMin ≤ id → id ≤ intMax →
      ParseBlobKey (CreateBlobKey t id) = .ok (some (t, id))) ∧
    (∀ (key : Bytes) (t : BlobType) (id : Int),
      ParseBlobKey key = .ok (some (t, id)) → intMin ≤ id ∧ id ≤ intMax) :=
  ⟨fun _ h => parseBlobKey_no_sep h,
   fun _ _ hrf hst => parseBlobKey_throws hrf hst,
   fun _ _ _ hrf hst h1 h2 h3 => parseBlobKey_unknown_pre hrf hst h1 h2 h3,
   fun _ _ h1 h2 => parseBlobKey_createBlobKey h1 h2,
   fun _ _ _ h => parseBlobKey_range h⟩

/-- Witness for the amended C3: the meta key `DBVersion` has no separator
and is explicitly rejected, and a concrete negative-handle key decodes
back to exactly its components. -/
theorem parseBlobKey_amended_characterization_witness :
    ParseBlobKey (strB "DBVersion") = .ok none ∧
      ParseBlobKey (CreateBlobKey BlobType.kPrivate (-3)) =
        .ok (some (BlobType.kPrivate, -3)) :=
  ⟨parseBlobKey_amended_characterization.1 (strB "DBVersion") (by decide),
   parseBlobKey_amended_characterization.2.2.2.1 BlobType.kPrivate (-3)
     (by decide) (by decide)⟩

/-! ## Claim C2 (counterexample) -/

/-- A store holding one persisted entry whose key decodes to
`(kPublic, 7)` but whose value (5 bytes, shorter than a MAC) fails
decryption; the handle-to-category index is empty. -/
def w2Store : Store :=
  { db := [(strB "PublicBlob&7", strB "short")], key_ := [], blob_type_map_ := [] }

/-- Counterexample to C2 as stated: the single entry decodes to the
requested category but fails decryption; the load succeeds with an empty
result map and the store is returned completely unchanged — in
particular the handle-to-category index is NOT backfilled with handle 7,
contrary to the claim that decode success alone backfills the index. -/
theorem loadObjectBlobs_no_backfill_on_decrypt_failure_cex :
    LoadPublicObjectBlobs idCipherPrims w2Store = .ok (some [], w2Store) ∧
      aget w2Store.blob_type_map_ 7 = none := by
  exact ⟨by rfl, by rfl⟩

/-! ## Crypto-layer lemmas, Claims C5 and C6 -/

theorem verify_append (C : CryptoPrims) (x key : Bytes)
    (hmaclen : (C.hmacSha512 x key).length = kHMACSizeBytes) :
    VerifyAndStripHMAC C (AppendHMAC C x key) key = some x := by
  rw [AppendHMAC, VerifyAndStripHMAC]
  have hlen : (x ++ C.hmacSha512 x key).length = x.length + kHMACSizeBytes := by
    rw [List.length_append, hmaclen]
  rw [hlen]
  rw [if_neg (by omega)]
  have hsub : x.length + kHMACSizeBytes - kHMACSizeBytes = x.length := by omega
  rw [hsub, take_len_append, drop_len_append, if_pos rfl]

theorem verify_of_checks {C : CryptoPrims} {input key : Bytes}
    (hnl : ¬(input.length < kHMACSizeBytes))
    (hmac : input.drop (input.length - kHMACSizeBytes) =
      C.hmacSha512 (input.take (input.length - kHMACSizeBytes)) key) :
    VerifyAndStripHMAC C input key = some (input.take (input.length - kHMACSizeBytes)) := by
  rw [VerifyAndStripHMAC, if_neg hnl, if_pos hmac]

theorem decryptWithKey_of_verify {C : CryptoPrims} {key : Bytes} {ct : ObjectBlob}
    {stripped : Bytes} (hv : VerifyAndStripHMAC C ct.blob key = some stripped) :
    decryptWithKey C key ct =
      if (stripped.headD (Char.ofNat 0)).toNat ≠ kBlobVersion then none
      else
        match C.runCipher false key [] (stripped.drop 1) with
        | none => none
        | some plain => some { is_private := ct.is_private, blob := plain } := by
  rw [decryptWithKey, hv]

theorem encryptWithKey_is_private {C : CryptoPrims} {key : Bytes} {b enc : ObjectBlob}
    (h : encryptWithKey C key b = some enc) : enc.is_private = b.is_private := by
  rw [encryptWithKey] at h
  rcases hct : C.runCipher true key [] b.blob with _ | ct <;> simp only [hct] at h
  · exact Option.noConfusion h
  · cases h; rfl

theorem decrypt_encrypt_withKey (C : CryptoPrims) (key : Bytes) (b enc : ObjectBlob)
    (hmaclen : ∀ input k, (C.hmacSha512 input k).length = kHMACSizeBytes)
    (hcipher : ∀ k iv d c, C.runCipher true k iv d = some c →
      C.runCipher false k iv c = some d)
    (h : encryptWithKey C key b = some enc) : decryptWithKey C key enc = some b := by
  rw [encryptWithKey] at h
  rcases hct : C.runCipher true key [] b.blob with _ | ct <;> simp only [hct] at h
  · exact Option.noConfusion h
  · cases h
    have hv := verify_append C ([Char.ofNat kBlobVersion] ++ ct) key (hmaclen _ _)
    simp only [decryptWithKey, hv]
    have hhead : ([Char.ofNat kBlobVersion] ++ ct).headD (Char.ofNat 0) =
        Char.ofNat kBlobVersion := rfl
    rw [hhead]
    rw [if_neg (by decide)]
    have hdrop : ([Char.ofNat kBlobVersion] ++ ct).drop 1 = ct := rfl
    rw [hdrop]
    simp only [hcipher key [] b.blob ct hct]

/-- Claim C5: for every blob and every key state valid for it (32-byte
secret key present when the blob is private), a successful `Encrypt`
round-trips through `Decrypt` to the original blob, privacy flag
included, provided the cipher provider inverts itself and the digest
provider returns 64-byte tags. -/
theorem decrypt_encrypt_roundtrip
    (C : CryptoPrims) (s : Store) (b enc : ObjectBlob)
    (hkey : b.is_private = true → s.key_.length = kAESKeySizeBytes)
    (hmaclen : ∀ input k, (C.hmacSha512 input k).length = kHMACSizeBytes)
    (hcipher : ∀ k iv d c, C.runCipher true k iv d = some c →
      C.runCipher false k iv c = some d)
    (henc : Encrypt C s b = some enc) :
    Decrypt C s enc = some b := by
  by_cases hgate : b.is_private = true ∧ s.key_ = []
  · exfalso
    have hl := hkey hgate.1
    rw [hgate.2] at hl
    simp [kAESKeySizeBytes] at hl
  · rw [Encrypt, EncryptK, if_neg hgate] at henc
    have hpriv : enc.is_private = b.is_private := encryptWithKey_is_private henc
    rw [Decrypt, DecryptK]
    rw [if_neg (by rw [hpriv]; exact hgate)]
    rw [hpriv]
    exact decrypt_encrypt_withKey C _ b enc hmaclen hcipher henc

/-- Witness for C5: a concrete private blob under a concrete 32-byte key
is recovered exactly by `Decrypt` after `Encrypt`. -/
theorem decrypt_encrypt_roundtrip_witness :
    Decrypt idCipherPrims
        { db := [], key_ := strB "0123456789abcdef0123456789ABCDEF", blob_type_map_ := [] }
        ((Encrypt idCipherPrims
          { db := [], key_ := strB "0123456789abcdef0123456789ABCDEF", blob_type_map_ := [] }
          { is_private := true, blob := strB "secret" }).get (by rfl)) =
      some { is_private := true, blob := strB "secret" } :=
  decrypt_encrypt_roundtrip idCipherPrims
    { db := [], key_ := strB "0123456789abcdef0123456789ABCDEF", blob_type_map_ := [] }
    { is_private := true, blob := strB "secret" } _
    (fun _ => by decide)
    (fun _ _ => by simp [idCipherPrims, kHMACSizeBytes])
    (fun k iv d c h => by simp only [idCipherPrims] at h ⊢; cases h; rfl)
    (Option.some_get _).symm

/-- Claim C6: on a record of at least MAC length whose trailing 64 bytes
equal the recomputed MAC under the selected key, `Decrypt` still fails
whenever the version byte it reads is not the supported value; a MAC
mismatch alone also fails; and when the MAC verifies, the version byte is
the supported value and the cipher succeeds, `Decrypt` succeeds — so the
MAC check runs first and the two checks compose. -/
theorem decrypt_version_gate
    (C : CryptoPrims) (s : Store) (r : ObjectBlob)
    (hlen : kHMACSizeBytes ≤ r.blob.length)
    (hkeyok : r.is_private = true → s.key_ ≠ []) :
    (macOf r = C.hmacSha512 (strippedOf r) (selKey s r) →
      ((strippedOf r).headD (Char.ofNat 0)).toNat ≠ kBlobVersion →
      Decrypt C s r = none) ∧
    (macOf r ≠ C.hmacSha512 (strippedOf r) (selKey s r) → Decrypt C s r = none) ∧
    (∀ p, macOf r = C.hmacSha512 (strippedOf r) (selKey s r) →
      ((strippedOf r).headD (Char.ofNat 0)).toNat = kBlobVersion →
      C.runCipher false (selKey s r) [] ((strippedOf r).drop 1) = some p →
      Decrypt C s r = some { is_private := r.is_private, blob := p }) := by
  have hgate : ¬(r.is_private = true ∧ s.key_ = []) := fun hh => hkeyok hh.1 hh.2
  have hnl : ¬(r.blob.length < kHMACSizeBytes) := Nat.not_lt.mpr hlen
  simp only [selKey, strippedOf, macOf]
  refine ⟨?_, ?_, ?_⟩
  · intro hmac hver
    rw [Decrypt, DecryptK, if_neg hgate,
      decryptWithKey_of_verify (verify_of_checks hnl hmac), if_pos hver]
  · intro hmac
    rw [Decrypt, DecryptK, if_neg hgate, decryptWithKey, VerifyAndStripHMAC, if_neg hnl,
      if_neg hmac]
  · intro p hmac hver hp
    rw [Decrypt, DecryptK, if_neg hgate,
      decryptWithKey_of_verify (verify_of_checks hnl hmac)]
    rw [if_neg (show ¬(((r.blob.take (r.blob.length - kHMACSizeBytes)).headD
        (Char.ofNat 0)).toNat ≠ kBlobVersion) from fun hh => hh hver)]
    rw [hp]

/-- A concrete 67-byte record whose MAC region verifies under the
obfuscation key but whose version byte is 2. -/
def w6Rec : ObjectBlob :=
  { is_private := false,
    blob := Char.ofNat 2 :: (strB "zz" ++ List.replicate 64 (Char.ofNat 35)) }

/-- Witness for C6: the MAC of the concrete record verifies, the version
byte is 2, and decryption fails. -/
theorem decrypt_version_gate_witness :
    Decrypt idCipherPrims { db := [], key_ := [], blob_type_map_ := [] } w6Rec = none :=
  (decrypt_version_gate idCipherPrims { db := [], key_ := [], blob_type_map_ := [] } w6Rec
    (by decide) (by decide)).1 (by decide) (by decide)

/-! ## Allocator lemmas, Claim C7 -/

theorem readInt_some {db : List (Bytes × Bytes)} {k raw : Bytes} {v : Int}
    (hraw : aget db k = some raw) (hst : stoiChars raw = .ok v) :
    ReadInt db k = .ok (some v) := by
  rw [ReadInt, ReadBlob]
  simp only [hraw, hst]

theorem getNextID_max (e : Env) (s : Store)
    (h : aget s.db kIDTrackerKey = some (intToDecimal intMax)) :
    GetNextID e s = .ok (none, s) := by
  have hri : ReadInt s.db kIDTrackerKey = .ok (some intMax) :=
    readInt_some h (stoiChars_intToDecimal (by decide) (by decide))
  simp [GetNextID, hri]

theorem getNextID_step (e : Env) (s : Store) (n : Int)
    (hraw : aget s.db kIDTrackerKey = some (intToDecimal n))
    (h1 : intMin ≤ n) (h2 : n < intMax)
    (hput : e.putFails kIDTrackerKey = false) :
    GetNextID e s =
      .ok (some n, { s with db := aput s.db kIDTrackerKey (intToDecimal (n + 1)) }) := by
  have hri : ReadInt s.db kIDTrackerKey = .ok (some n) :=
    readInt_some hraw (stoiChars_intToDecimal h1 (le_of_lt h2))
  have hw : WriteInt e s.db kIDTrackerKey (n + 1) =
      some (aput s.db kIDTrackerKey (intToDecimal (n + 1))) := by
    simp [WriteInt, WriteBlob, hput]
  simp only [GetNextID, hri, if_neg (show ¬n = intMax from by omega), hw]

theorem getNextID_ok_inv {e : Env} {s : Store} {v : Int} {s1 : Store}
    (h : GetNextID e s = .ok (some v, s1)) :
    (∃ raw, aget s.db kIDTrackerKey = some raw ∧ stoiChars raw = .ok v) ∧
      v ≠ intMax ∧ s1.db = aput s.db kIDTrackerKey (intToDecimal (v + 1)) := by
  rw [GetNextID, ReadInt, ReadBlob] at h
  rcases hraw : aget s.db kIDTrackerKey with _ | raw <;> simp only [hraw] at h
  · exact Option.noConfusion (congrArg (fun p => p.1) (Except.ok.inj h))
  · rcases hst : stoiChars raw with u | m <;> simp only [hst] at h
    · exact Except.noConfusion h
    · by_cases hmax : m = intMax
      · rw [if_pos hmax] at h
        exact Option.noConfusion (congrArg (fun p => p.1) (Except.ok.inj h))
      · rw [if_neg hmax] at h
        rw [WriteInt, WriteBlob] at h
        by_cases hput : e.putFails kIDTrackerKey = true
        · simp only [if_pos hput] at h
          exact Option.noConfusion (congrArg (fun p => p.1) (Except.ok.inj h))
        · simp only [if_neg hput] at h
          have h' := Except.ok.inj h
          have hv : m = v := Option.some.inj (congrArg (fun p => p.1) h')
          have hs : s1 = { s with db := aput s.db kIDTrackerKey (intToDecimal (m + 1)) } :=
            (congrArg (fun p => p.2) h').symm
          subst hv
          exact ⟨⟨raw, rfl, hst⟩, hmax, by rw [hs]⟩

theorem getNextID_mono {e e' : Env} {s s1 s2 s3 : Store} {v w : Int}
    (h1 : GetNextID e s = .ok (some v, s1)) (hdb : s2.db = s1.db)
    (h2 : GetNextID e' s2 = .ok (some w, s3)) : v < w := by
  obtain ⟨⟨raw, hraw, hst⟩, hmax, hs1⟩ := getNextID_ok_inv h1
  obtain ⟨⟨raw2, hraw2, hst2⟩, _, _⟩ := getNextID_ok_inv h2
  have hr := stoiChars_range hst
  have hround : stoiChars (intToDecimal (v + 1)) = .ok (v + 1) :=
    stoiChars_intToDecimal (by omega) (by omega)
  rw [hdb, hs1, aget_aput_self] at hraw2
  have hraw2' : raw2 = intToDecimal (v + 1) := (Option.some.inj hraw2).symm
  rw [hraw2', hround] at hst2
  have : v + 1 = w := Except.ok.inj hst2
  omega

/-- Claim C7: the allocator fails without writing when the persisted
counter holds the maximum `int`; otherwise it durably writes the
incremented counter and returns the pre-increment value; and any two
consecutive successful calls — including a second call on a freshly
constructed store sharing only the persisted state — return strictly
increasing handles. -/
theorem getNextID_allocator_spec (e e' : Env) (s : Store) :
    (aget s.db kIDTrackerKey = some (intToDecimal intMax) →
      GetNextID e s = .ok (none, s)) ∧
    (∀ n : Int, aget s.db kIDTrackerKey = some (intToDecimal n) →
      intMin ≤ n → n < intMax → e.putFails kIDTrackerKey = false →
      GetNextID e s =
        .ok (some n, { s with db := aput s.db kIDTrackerKey (intToDecimal (n + 1)) })) ∧
    (∀ (s1 s2 s3 : Store) (v w : Int),
      GetNextID e s = .ok (some v, s1) → s2.db = s1.db →
      GetNextID e' s2 = .ok (some w, s3) → v < w) :=
  ⟨fun h => getNextID_max e s h,
   fun n hraw h1 h2 hput => getNextID_step e s n hraw h1 h2 hput,
   fun _ _ _ _ _ h1 hdb h2 => getNextID_mono h1 hdb h2⟩

/-- A store whose persisted allocator counter is 41. -/
def w7Store : Store :=
  { db := [(strB "NextBlobID", strB "41")], key_ := [], blob_type_map_ := [] }

/-- Witness for C7: a concrete allocation from counter 41 returns 41 and
persists 42. -/
theorem getNextID_allocator_spec_witness :
    GetNextID noFailEnv w7Store =
      .ok (some 41,
        { w7Store with db := aput w7Store.db kIDTrackerKey (intToDecimal (41 + 1)) }) :=
  (getNextID_allocator_spec noFailEnv noFailEnv w7Store).2.1 41 (by decide) (by decide)
    (by decide) rfl

/-! ## Load-loop lemmas, Claim C2 (amended) and Claim C4 -/

theorem parseOk_ok {k : Bytes} (h : parseOk k = true) : ∃ r, ParseBlobKey k = .ok r := by
  rcases hpk : ParseBlobKey k with u | r
  · rw [parseOk] at h
    simp only [hpk] at h
    exact Bool.noConfusion h
  · exact ⟨r, rfl⟩

theorem loadLoop_ok (C : CryptoPrims) (k_ : Bytes) (t : BlobType) :
    ∀ (db : List (Bytes × Bytes)) (m : List (Int × ObjectBlob))
      (btm : List (Int × BlobType)),
      (∀ kv ∈ db, parseOk kv.1 = true) →
      ∃ r, loadLoop C k_ t db m btm = .ok r := by
  intro db
  induction db with
  | nil => intro m btm _; exact ⟨(m, btm), rfl⟩
  | cons kv rest ih =>
    intro m btm h
    obtain ⟨k, v⟩ := kv
    have hrest := fun x hx => h x (List.mem_cons_of_mem _ hx)
    obtain ⟨r, hpk⟩ := parseOk_ok (h (k, v) (List.mem_cons_self _ _))
    rcases r with _ | ⟨t2, id⟩
    · simp only [loadLoop, hpk]
      exact ih m btm hrest
    · simp only [loadLoop, hpk]
      by_cases ht : t = t2
      · rw [if_pos ht]
        rcases hd : DecryptK C k_ { is_private := decide (t = BlobType.kPrivate), blob := v }
          with _ | blob <;> simp only [hd]
        · exact ih m btm hrest
        · exact ih _ _ hrest
      · rw [if_neg ht]
        exact ih m btm hrest

theorem loadLoop_skip (C : CryptoPrims) (k_ : Bytes) (t : BlobType) (id : Int) :
    ∀ (db : List (Bytes × Bytes)) (m : List (Int × ObjectBlob))
      (btm : List (Int × BlobType)),
      (∀ kv ∈ db, parseOk kv.1 = true) →
      (∀ kv ∈ db, ParseBlobKey kv.1 = .ok (some (t, id)) →
        DecryptK C k_ { is_private := decide (t = BlobType.kPrivate), blob := kv.2 } = none) →
      ∃ m2 btm2, loadLoop C k_ t db m btm = .ok (m2, btm2) ∧
        aget m2 id = aget m id ∧ aget btm2 id = aget btm id := by
  intro db
  induction db with
  | nil => intro m btm _ _; exact ⟨m, btm, rfl, rfl, rfl⟩
  | cons kv rest ih =>
    intro m btm h hfail
    obtain ⟨k, v⟩ := kv
    have hrest := fun x hx => h x (List.mem_cons_of_mem _ hx)
    have hfrest := fun x hx hp2 => hfail x (List.mem_cons_of_mem _ hx) hp2
    obtain ⟨r, hpk⟩ := parseOk_ok (h (k, v) (List.mem_cons_self _ _))
    rcases r with _ | ⟨t2, id2⟩
    · simp only [loadLoop, hpk]
      exact ih m btm hrest hfrest
    · simp only [loadLoop, hpk]
      by_cases ht : t = t2
      · rw [if_pos ht]
        rcases hd : DecryptK C k_ { is_private := decide (t = BlobType.kPrivate), blob := v }
          with _ | blob <;> simp only [hd]
        · exact ih m btm hrest hfrest
        · have hne : id2 ≠ id := by
            intro hid
            have hdn := hfail (k, v) (List.mem_cons_self _ _) (by rw [hpk, ht, hid])
            rw [hdn] at hd
            exact Option.noConfusion hd
          obtain ⟨m2, btm2, hm, h1, h2⟩ := ih (aput m id2 blob) (aput btm id2 t) hrest hfrest
          exact ⟨m2, btm2, hm, by rw [h1, aget_aput_ne _ _ _ _ hne],
            by rw [h2, aget_aput_ne _ _ _ _ hne]⟩
      · rw [if_neg ht]
        exact ih m btm hrest hfrest

/-- Claim C2, amended: during a category load, an entry whose key decodes
to the requested category but whose value fails decryption is skipped
from the returned mapping AND does not backfill the in-memory
handle-to-category index (the backfill happens only after a successful
decryption); the overall load still reports success. -/
theorem loadObjectBlobs_skips_undecryptable
    (C : CryptoPrims) (t : BlobType) (s : Store) (k v : Bytes) (id : Int)
    (hnothrow : ∀ kv ∈ s.db, parseOk kv.1 = true)
    (hmem : (k, v) ∈ s.db)
    (hparse : ParseBlobKey k = .ok (some (t, id)))
    (hfail : ∀ kv ∈ s.db, ParseBlobKey kv.1 = .ok (some (t, id)) →
      DecryptK C s.key_
        { is_private := decide (t = BlobType.kPrivate), blob := kv.2 } = none) :
    loadOkAnd (LoadObjectBlobs C t s) (fun m s2 =>
      aget m id = none ∧ aget s2.blob_type_map_ id = aget s.blob_type_map_ id) := by
  obtain ⟨m2, btm2, hm, h1, h2⟩ :=
    loadLoop_skip C s.key_ t id s.db [] s.blob_type_map_ hnothrow hfail
  simp only [loadOkAnd, LoadObjectBlobs, hm]
  exact ⟨h1, h2⟩

/-- A store with one undecryptable public entry, one internal entry, and
an index mapping only handle 9. -/
def w2bStore : Store :=
  { db := [(strB "PublicBlob&7", strB "short"), (strB "InternalBlob&2", strB "meta")],
    key_ := [], blob_type_map_ := [(9, BlobType.kPublic)] }

/-- Witness for the amended C2: the concrete undecryptable public entry
with handle 7 ends up neither in the returned map nor in the index, and
the load reports success. -/
theorem loadObjectBlobs_skips_undecryptable_witness :
    loadOkAnd (LoadObjectBlobs idCipherPrims BlobType.kPublic w2bStore) (fun m s2 =>
      aget m 7 = none ∧ aget s2.blob_type_map_ 7 = aget w2bStore.blob_type_map_ 7) :=
  loadObjectBlobs_skips_undecryptable idCipherPrims BlobType.kPublic w2bStore
    (strB "PublicBlob&7") (strB "short") 7 (by decide) (by decide) (by decide) (by decide)

/-- Shared helper: `UpdateObjectBlob` reports success whenever the
privacy check passes and `Encrypt` succeeds, whatever the write does. -/
theorem update_fst_true_of_encrypt {C : CryptoPrims} {e : Env} {st : Store} {hdl : Int}
    {blob enc : ObjectBlob}
    (hagree : blob.is_private = decide (GetBlobType st hdl = BlobType.kPrivate))
    (henc : Encrypt C st blob = some enc) :
    (UpdateObjectBlob C e st hdl blob).1 = true := by
  simp only [UpdateObjectBlob, henc]
  rw [if_neg (by rw [hagree]; simp)]
  cases WriteBlob e st.db (CreateBlobKey (GetBlobType st hdl) hdl) enc.blob <;> rfl

/-- Shared helper: the privacy check passes and the cipher succeeds,
hence `UpdateObjectBlob` reports success. -/
theorem update_fst_true_of (C : CryptoPrims) (e : Env) (st : Store) (hdl : Int)
    (blob : ObjectBlob)
    (hagree : blob.is_private = decide (GetBlobType st hdl = BlobType.kPrivate))
    (hc : (C.runCipher true (if blob.is_private = true then st.key_ else obfuscationKey)
      [] blob.blob).isSome = true)
    (hgate : ¬(blob.is_private = true ∧ st.key_ = [])) :
    (UpdateObjectBlob C e st hdl blob).1 = true := by
  rcases hct : C.runCipher true (if blob.is_private = true then st.key_ else obfuscationKey)
      [] blob.blob with _ | ct
  · rw [hct] at hc
    exact Bool.noConfusion hc
  · have henc : Encrypt C st blob = some (ObjectBlob.mk blob.is_private
        (AppendHMAC C ([Char.ofNat kBlobVersion] ++ ct)
          (if blob.is_private = true then st.key_ else obfuscationKey))) := by
      rw [Encrypt, EncryptK, if_neg hgate, encryptWithKey]
      simp only [hct]
    exact update_fst_true_of_encrypt hagree henc

/-- Shared helper: a private insert succeeds (its handle is the
pre-increment allocator value) once a key is set, the persisted counter
is readable and below the maximum, its durable write succeeds, and the
cipher succeeds. -/
theorem insert_ok_general (C : CryptoPrims) (e : Env) (db0 : List (Bytes × Bytes))
    (k0 : Bytes) (btm0 : List (Int × BlobType)) (blob : ObjectBlob) (n : Int)
    (hk0 : k0 ≠ [])
    (htracker : aget db0 kIDTrackerKey = some (intToDecimal n))
    (hn1 : intMin ≤ n) (hn2 : n < intMax)
    (hput : e.putFails kIDTrackerKey = false)
    (hpriv : blob.is_private = true)
    (hc : (C.runCipher true k0 [] blob.blob).isSome = true) :
    insertOk (InsertObjectBlob C e ⟨db0, k0, btm0⟩ blob) = true := by
  have hgate : ¬(blob.is_private = true ∧ (⟨db0, k0, btm0⟩ : Store).key_ = []) :=
    fun hh => hk0 hh.2
  have hstep := getNextID_step e ⟨db0, k0, btm0⟩ n htracker hn1 hn2 hput
  rw [InsertObjectBlob, if_neg hgate]
  simp only [hstep]
  have hg : GetBlobType ⟨aput db0 kIDTrackerKey (intToDecimal (n + 1)), k0,
      aput btm0 n (if blob.is_private = true then BlobType.kPrivate else BlobType.kPublic)⟩ n
      = BlobType.kPrivate := by
    simp [GetBlobType, aget_aput_self, hpriv]
  have hupd : (UpdateObjectBlob C e
      ⟨aput db0 kIDTrackerKey (intToDecimal (n + 1)), k0,
        aput btm0 n (if blob.is_private = true then BlobType.kPrivate else BlobType.kPublic)⟩
      n blob).1 = true := by
    apply update_fst_true_of
    · rw [hg, hpriv]
      simp
    · simpa [hpriv] using hc
    · exact fun hh => hk0 hh.2
  rw [hupd]
  rfl

/-- Claim C4: with no key set, a private insert, a private update on a
private handle, and a private load all fail with the store unchanged
(before any allocation, write, or scan); after `SetEncryptionKey`
installs a 32-byte key, the otherwise-identical calls succeed (given a
readable non-exhausted allocator, a succeeding counter write, a
succeeding cipher, and throw-free persisted keys). -/
theorem fail_closed_gating
    (C : CryptoPrims) (e : Env) (s : Store) (blob : ObjectBlob) (hdl : Int) (k : Bytes)
    (n : Int)
    (hpriv : blob.is_private = true)
    (hnokey : s.key_ = [])
    (hk : k.length = kAESKeySizeBytes)
    (htype : aget s.blob_type_map_ hdl = some BlobType.kPrivate)
    (htracker : aget s.db kIDTrackerKey = some (intToDecimal n))
    (hn1 : intMin ≤ n) (hn2 : n < intMax)
    (hput : e.putFails kIDTrackerKey = false)
    (hcipher : (C.runCipher true k [] blob.blob).isSome = true)
    (hnothrow : ∀ kv ∈ s.db, parseOk kv.1 = true) :
    InsertObjectBlob C e s blob = .ok (none, s) ∧
    UpdateObjectBlob C e s hdl blob = (false, s) ∧
    LoadPrivateObjectBlobs C s = .ok (none, s) ∧
    SetEncryptionKey s k = (true, { s with key_ := k }) ∧
    insertOk (InsertObjectBlob C e { s with key_ := k } blob) = true ∧
    (UpdateObjectBlob C e { s with key_ := k } hdl blob).1 = true ∧
    loadOk (LoadPrivateObjectBlobs C { s with key_ := k }) = true := by
  have hkne : k ≠ [] := by
    intro hh
    rw [hh] at hk
    simp [kAESKeySizeBytes] at hk
  refine ⟨?_, ?_, ?_, ?_, ?_, ?_, ?_⟩
  · rw [InsertObjectBlob, if_pos ⟨hpriv, hnokey⟩]
  · have hencnone : Encrypt C s blob = none := by
      rw [Encrypt, EncryptK, if_pos ⟨hpriv, hnokey⟩]
    simp [UpdateObjectBlob, GetBlobType, htype, hpriv, hencnone]
  · rw [LoadPrivateObjectBlobs, if_pos hnokey]
  · rw [SetEncryptionKey, if_neg (show ¬(k.length ≠ kAESKeySizeBytes) from fun hh => hh hk)]
  · exact insert_ok_general C e s.db k s.blob_type_map_ blob n hkne htracker hn1 hn2
      hput hpriv hcipher
  · apply update_fst_true_of
    · have hg : GetBlobType { s with key_ := k } hdl = BlobType.kPrivate := by
        simp [GetBlobType, htype]
      rw [hg, hpriv]
      simp
    · simpa [hpriv] using hcipher
    · exact fun hh => hkne hh.2
  · rw [LoadPrivateObjectBlobs,
      if_neg (show ¬({ s with key_ := k } : Store).key_ = [] from hkne)]
    obtain ⟨r, hr⟩ := loadLoop_ok C k BlobType.kPrivate s.db [] s.blob_type_map_ hnothrow
    obtain ⟨m1, btm1⟩ := r
    simp only [loadOk, LoadObjectBlobs, hr, Except.map]

/-- A store for the C4 witness: empty key, a readable allocator counter
of 5, and handle 9 recorded as private. -/
def w4Store : Store :=
  { db := [(strB "NextBlobID", strB "5")], key_ := [],
    blob_type_map_ := [(9, BlobType.kPrivate)] }

/-- Witness for C4: all seven gating conclusions hold at a concrete
private blob, store, 32-byte key, and fault-free environment. -/
theorem fail_closed_gating_witness :
    InsertObjectBlob idCipherPrims noFailEnv w4Store
        { is_private := true, blob := strB "data" } = .ok (none, w4Store) ∧
    UpdateObjectBlob idCipherPrims noFailEnv w4Store 9
        { is_private := true, blob := strB "data" } = (false, w4Store) ∧
    LoadPrivateObjectBlobs idCipherPrims w4Store = .ok (none, w4Store) ∧
    SetEncryptionKey w4Store (strB "0123456789abcdef0123456789abcdef") =
      (true, { w4Store with key_ := strB "0123456789abcdef0123456789abcdef" }) ∧
    insertOk (InsertObjectBlob idCipherPrims noFailEnv
      { w4Store with key_ := strB "0123456789abcdef0123456789abcdef" }
      { is_private := true, blob := strB "data" }) = true ∧
    (UpdateObjectBlob idCipherPrims noFailEnv
      { w4Store with key_ := strB "0123456789abcdef0123456789abcdef" } 9
      { is_private := true, blob := strB "data" }).1 = true ∧
    loadOk (LoadPrivateObjectBlobs idCipherPrims
      { w4Store with key_ := strB "0123456789abcdef0123456789abcdef" }) = true :=
  fail_closed_gating idCipherPrims noFailEnv w4Store
    { is_private := true, blob := strB "data" } 9
    (strB "0123456789abcdef0123456789abcdef") 5 rfl rfl (by decide) (by decide)
    (by decide) (by decide) (by decide) rfl rfl (by decide)

/-! ## Claim C8 -/

/-- Claim C8: a handle with no entry in the in-memory index is treated as
Internal: `GetBlobType` returns `kInternal`, `DeleteObjectBlob` issues
its delete under the `InternalBlob` key, and `UpdateObjectBlob` with a
non-private blob passes the privacy check and persists the encrypted
record under the `InternalBlob` key (rather than `PublicBlob` or
`PrivateBlob`). -/
theorem unmapped_handle_internal_default
    (C : CryptoPrims) (e : Env) (s : Store) (h : Int) (blob enc : ObjectBlob)
    (hunmapped : aget s.blob_type_map_ h = none) :
    GetBlobType s h = BlobType.kInternal ∧
    DeleteObjectBlob e s h =
      (if e.deleteFails (CreateBlobKey BlobType.kInternal h) then (false, s)
       else (true, { s with db := aerase s.db (CreateBlobKey BlobType.kInternal h) })) ∧
    (blob.is_private = false → Encrypt C s blob = some enc →
      e.putFails (CreateBlobKey BlobType.kInternal h) = false →
      UpdateObjectBlob C e s h blob =
        (true, { s with db := aput s.db (CreateBlobKey BlobType.kInternal h) enc.blob })) := by
  have hg : GetBlobType s h = BlobType.kInternal := by
    rw [GetBlobType, hunmapped]
  refine ⟨hg, ?_, ?_⟩
  · rw [DeleteObjectBlob, hg]
  · intro hpub henc hput
    simp only [UpdateObjectBlob, hg, henc]
    rw [if_neg (by rw [hpub]; simp)]
    simp [WriteBlob, hput]

/-- A store for the C8 witness: handle 7 unmapped, handle 3 public. -/
def w8Store : Store :=
  { db := [(strB "DBVersion", strB "1")], key_ := [],
    blob_type_map_ := [(3, BlobType.kPublic)] }

/-- The C8 witness blob and its encrypted record. -/
def w8Blob : ObjectBlob := { is_private := false, blob := strB "pub" }

def w8Enc : ObjectBlob := (Encrypt idCipherPrims w8Store w8Blob).get (by rfl)

/-- Witness for C8 at the unmapped handle 7 of a concrete store. -/
theorem unmapped_handle_internal_default_witness :
    GetBlobType w8Store 7 = BlobType.kInternal ∧
    DeleteObjectBlob noFailEnv w8Store 7 =
      (if noFailEnv.deleteFails (CreateBlobKey BlobType.kInternal 7) then (false, w8Store)
       else (true,
         { w8Store with db := aerase w8Store.db (CreateBlobKey BlobType.kInternal 7) })) ∧
    (w8Blob.is_private = false → Encrypt idCipherPrims w8Store w8Blob = some w8Enc →
      noFailEnv.putFails (CreateBlobKey BlobType.kInternal 7) = false →
      UpdateObjectBlob idCipherPrims noFailEnv w8Store 7 w8Blob =
        (true,
          { w8Store with
            db := aput w8Store.db (CreateBlobKey BlobType.kInternal 7) w8Enc.blob })) :=
  unmapped_handle_internal_default idCipherPrims noFailEnv w8Store 7 w8Blob w8Enc (by decide)

/-! ## Sweep lemmas, Claim C9 -/

theorem isSweepTarget_none {k : Bytes} (h : ParseBlobKey k = .ok none) :
    isSweepTarget k = false := by
  simp only [isSweepTarget, h]

theorem isSweepTarget_some {k : Bytes} {t : BlobType} {id : Int}
    (h : ParseBlobKey k = .ok (some (t, id))) :
    isSweepTarget k = decide (t ≠ BlobType.kInternal) := by
  simp only [isSweepTarget, h]

theorem sweepKeys_ok (db : List (Bytes × Bytes)) (h : ∀ kv ∈ db, parseOk kv.1 = true) :
    sweepKeys db = .ok ((db.map Prod.fst).filter isSweepTarget) := by
  induction db with
  | nil => rfl
  | cons kv rest ih =>
    obtain ⟨k, v⟩ := kv
    have hrest := ih (fun x hx => h x (List.mem_cons_of_mem _ hx))
    obtain ⟨r, hpk⟩ := parseOk_ok (h (k, v) (List.mem_cons_self _ _))
    rcases r with _ | ⟨t, id⟩
    · simp only [sweepKeys, hpk, hrest, List.map_cons, List.filter_cons,
        isSweepTarget_none hpk]
      simp
    · by_cases hti : t = BlobType.kInternal
      · simp [sweepKeys, hpk, hrest, List.filter_cons, isSweepTarget_some hpk, hti]
      · simp [sweepKeys, hpk, hrest, List.filter_cons, isSweepTarget_some hpk, hti]

theorem delete_foldl_spec (e : Env) :
    ∀ (ks : List Bytes) (b : Bool) (db : List (Bytes × Bytes)),
      ks.foldl
        (fun acc k => if e.deleteFails k then (false, acc.2) else (acc.1, aerase acc.2 k))
        (b, db) =
      (b && ks.all (fun k => !e.deleteFails k),
        db.filter (fun kv => !(bmem kv.1 ks && !e.deleteFails kv.1))) := by
  intro ks
  induction ks with
  | nil =>
    intro b db
    simp only [List.foldl_nil, List.all_nil, Bool.and_true]
    rw [List.filter_eq_self.mpr]
    intro kv _
    simp [bmem]
  | cons k ks ih =>
    intro b db
    rw [List.foldl_cons]
    by_cases hf : e.deleteFails k = true
    · rw [if_pos hf, ih]
      refine Prod.ext ?_ ?_
      · simp [List.all_cons, hf]
      · apply List.filter_congr
        intro kv hkv
        by_cases hk : kv.1 = k
        · simp [bmem, hk, hf]
        · simp [bmem, hk, show ¬(k = kv.1) from fun hh => hk hh.symm]
    · rw [if_neg hf, ih]
      have hf2 : e.deleteFails k = false := by simpa using hf
      refine Prod.ext ?_ ?_
      · simp [List.all_cons, hf2]
      · rw [aerase, List.filter_filter]
        apply List.filter_congr
        intro kv hkv
        by_cases hk : kv.1 = k
        · simp [bmem, hk, hf2]
        · simp [bmem, hk, show ¬(k = kv.1) from fun hh => hk hh.symm]

theorem bmem_filtered {db : List (Bytes × Bytes)} {kv : Bytes × Bytes} (hkv : kv ∈ db) :
    bmem kv.1 ((db.map Prod.fst).filter isSweepTarget) = isSweepTarget kv.1 := by
  cases ht : isSweepTarget kv.1
  · cases hb : bmem kv.1 ((db.map Prod.fst).filter isSweepTarget)
    · rfl
    · exfalso
      have hmem := (bmem_iff _ _).mp hb
      have h2 := (List.mem_filter.mp hmem).2
      rw [ht] at h2
      exact Bool.noConfusion h2
  · exact (bmem_iff _ _).mpr
      (List.mem_filter.mpr ⟨List.mem_map_of_mem _ hkv, ht⟩)

theorem all_filtered (e : Env) (db : List (Bytes × Bytes)) :
    ((db.map Prod.fst).filter isSweepTarget).all (fun k => !e.deleteFails k) =
      db.all (fun kv => !(isSweepTarget kv.1 && e.deleteFails kv.1)) := by
  induction db with
  | nil => rfl
  | cons kv rest ih =>
    rw [List.map_cons, List.filter_cons]
    cases ht : isSweepTarget kv.1
    · simp [List.all_cons, ht, ih]
    · simp [List.all_cons, ht, ih]

/-- Claim C9: on a store whose keys never make `ParseBlobKey` throw,
`DeleteAllObjectBlobs` deletes exactly the decodable non-Internal
records whose individual deletes succeed (each selected deletion is
attempted independently of earlier failures), reports success exactly
when no selected deletion failed, and leaves every Internal record and
the `DBVersion` / `NextBlobID` meta keys untouched. -/
theorem deleteAllObjectBlobs_sweep_spec (e : Env) (s : Store)
    (hnothrow : ∀ kv ∈ s.db, parseOk kv.1 = true) :
    DeleteAllObjectBlobs e s = .ok
      (s.db.all (fun kv => !(isSweepTarget kv.1 && e.deleteFails kv.1)),
       { s with db :=
          s.db.filter (fun kv => !(isSweepTarget kv.1 && !e.deleteFails kv.1)) }) ∧
    (∀ kv ∈ s.db, isSweepTarget kv.1 = false →
      kv ∈ s.db.filter (fun kv => !(isSweepTarget kv.1 && !e.deleteFails kv.1))) ∧
    aget (s.db.filter (fun kv => !(isSweepTarget kv.1 && !e.deleteFails kv.1)))
      kDatabaseVersionKey = aget s.db kDatabaseVersionKey ∧
    aget (s.db.filter (fun kv => !(isSweepTarget kv.1 && !e.deleteFails kv.1)))
      kIDTrackerKey = aget s.db kIDTrackerKey := by
  refine ⟨?_, ?_, ?_, ?_⟩
  · have hfil : s.db.filter (fun kv =>
        !(bmem kv.1 ((s.db.map Prod.fst).filter isSweepTarget) && !e.deleteFails kv.1)) =
        s.db.filter (fun kv => !(isSweepTarget kv.1 && !e.deleteFails kv.1)) := by
      apply List.filter_congr
      intro kv hkv
      rw [bmem_filtered hkv]
    rw [DeleteAllObjectBlobs]
    simp only [sweepKeys_ok s.db hnothrow, delete_foldl_spec]
    rw [hfil, Bool.true_and, all_filtered]
  · intro kv hkv ht
    exact List.mem_filter.mpr ⟨hkv, by simp [ht]⟩
  · exact aget_filter_of_key s.db (fun x => !(isSweepTarget x && !e.deleteFails x))
      kDatabaseVersionKey (by simp [show isSweepTarget kDatabaseVersionKey = false from
        by decide])
  · exact aget_filter_of_key s.db (fun x => !(isSweepTarget x && !e.deleteFails x))
      kIDTrackerKey (by simp [show isSweepTarget kIDTrackerKey = false from by decide])

/-- A mixed store for the C9 witness: two public entries, one private,
one internal, and the two meta keys. -/
def w9Store : Store :=
  { db := [(strB "PublicBlob&1", strB "a"), (strB "PublicBlob&2", strB "b"),
           (strB "PrivateBlob&3", strB "c"), (strB "InternalBlob&4", strB "d"),
           (strB "DBVersion", strB "1"), (strB "NextBlobID", strB "5")],
    key_ := [], blob_type_map_ := [] }

/-- An environment whose delete fails exactly on the key of the second
public entry. -/
def w9Env : Env where
  putFails := fun _ => false
  deleteFails := fun k => decide (k = strB "PublicBlob&2")

/-- Witness for C9: the mixed sweep over the concrete store with one
injected delete failure. -/
theorem deleteAllObjectBlobs_sweep_spec_witness :
    DeleteAllObjectBlobs w9Env w9Store = .ok
      (w9Store.db.all (fun kv => !(isSweepTarget kv.1 && w9Env.deleteFails kv.1)),
       { w9Store with db := w9Store.db.filter (fun kv => !(isSweepTarget kv.1 && !w9Env.deleteFails kv.1)) }) ∧
    (∀ kv ∈ w9Store.db, isSweepTarget kv.1 = false →
      kv ∈ w9Store.db.filter
        (fun kv => !(isSweepTarget kv.1 && !w9Env.deleteFails kv.1))) ∧
    aget (w9Store.db.filter (fun kv => !(isSweepTarget kv.1 && !w9Env.deleteFails kv.1)))
      kDatabaseVersionKey = aget w9Store.db kDatabaseVersionKey ∧
    aget (w9Store.db.filter (fun kv => !(isSweepTarget kv.1 && !w9Env.deleteFails kv.1)))
      kIDTrackerKey = aget w9Store.db kIDTrackerKey :=
  deleteAllObjectBlobs_sweep_spec w9Env w9Store (by decide)

end P11Net
